import Mathlib

/-!
Verification of the XBOX-RGB LED controller firmware core
(`src/RGBCtrl.cpp`, `src/RGBudp.cpp`) against its natural-language
specification.  The C++ code is shallowly embedded: machine integers
become `Nat`/`Int` with explicit truncation where the code truncates,
the four strip buffers become a function `Frame`, the stateful pending
queue of the UDP module becomes an explicit state record, and the
single-precision float arithmetic of the palette sampler is idealised
as exact rational arithmetic (the claims quantify over real sample
positions).
-/

namespace XboxRGB

/-- `RgbColor` from RGBCtrl.cpp: three 8-bit channels (modelled as `Nat`,
the code only ever stores 0..255). -/
structure RgbColor where
  R : Nat
  G : Nat
  B : Nat
  deriving DecidableEq, Repr

/-- `AppConfig` from RGBCtrl.cpp (the single process-wide CFG record).
`count` is the four per-channel pixel counts, `reverse` the per-channel
reversal flags. -/
@[ext]
structure AppConfig where
  count : Fin 4 → Nat
  brightness : Nat
  mode : Nat
  speed : Nat
  intensity : Nat
  width : Nat
  colorA : Nat
  colorB : Nat
  colorC : Nat
  colorD : Nat
  paletteCount : Nat
  resumeOnBoot : Bool
  enableCpu : Bool
  enableFan : Bool
  reverse : Fin 4 → Bool
  masterOff : Bool
  customSeq : String
  customLoop : Bool

/-- The in-struct member initialisers of `AppConfig` (the defaults
installed by `defaults()`). -/
def defaultConfig : AppConfig where
  count := fun _ => 50
  brightness := 180
  mode := 4
  speed := 128
  intensity := 128
  width := 4
  colorA := 0xFF0000
  colorB := 0xFFA000
  colorC := 0x00FF00
  colorD := 0x0000FF
  paletteCount := 2
  resumeOnBoot := true
  enableCpu := true
  enableFan := true
  reverse := ![true, false, false, true]
  masterOff := false
  customSeq := "[]"
  customLoop := true

/-- `MAX_PER_CH` from RGBCtrl.cpp. -/
def MAX_PER_CH : Nat := 50

/-- `ringLen()` from RGBCtrl.cpp: `count[0]+count[1]+count[2]+count[3]`. -/
def ringLen (count : Fin 4 → Nat) : Nat :=
  count 0 + count 1 + count 2 + count 3

/-- The (channel, within-channel pixel) pair that `setRing` writes for a
logical ring index, or `none` past the end.  This is the loop of
`setRing` (RGBCtrl.cpp lines 154-166) with the running `base` partial
sums unrolled for the four fixed segments `segs[0..3]` built by
`rebuildRingMap` (channel `s` with count `count s`): the loop takes the
first segment with `idx < base + segs[s].count`, sets
`within = idx - base`, and reverses within the channel when
`CFG.reverse[ch] && segs[s].count` holds. -/
def ringMap (count : Fin 4 → Nat) (rev : Fin 4 → Bool) (idx : Nat) :
    Option (Fin 4 × Nat) :=
  if idx < count 0 then
    some (0, if rev 0 && decide (count 0 ≠ 0) then count 0 - 1 - idx else idx)
  else if idx < count 0 + count 1 then
    some (1, if rev 1 && decide (count 1 ≠ 0) then
      count 1 - 1 - (idx - count 0) else idx - count 0)
  else if idx < count 0 + count 1 + count 2 then
    some (2, if rev 2 && decide (count 2 ≠ 0) then
      count 2 - 1 - (idx - (count 0 + count 1)) else idx - (count 0 + count 1))
  else if idx < count 0 + count 1 + count 2 + count 3 then
    some (3, if rev 3 && decide (count 3 ≠ 0) then
      count 3 - 1 - (idx - (count 0 + count 1 + count 2))
      else idx - (count 0 + count 1 + count 2))
  else none

/-- Partial sum of the channel counts strictly before channel `s`
(the value of `base` when `setRing`'s loop reaches segment `s`). -/
def partialSum (count : Fin 4 → Nat) : Fin 4 → Nat
  | 0 => 0
  | 1 => count 0
  | 2 => count 0 + count 1
  | 3 => count 0 + count 1 + count 2

/-- The four strip pixel buffers: `Frame ch px` is the colour stored at
pixel `px` of channel `ch`. -/
def Frame : Type := Fin 4 → Nat → RgbColor

/-- `Adafruit_NeoPixel::setPixelColor` on strip `ch`: writes are ignored
outside the strip's `MAX_PER_CH` pixels (library bounds check). -/
def writePx (ch : Fin 4) (px : Nat) (c : RgbColor) (f : Frame) : Frame :=
  fun ch' px' => if ch' = ch ∧ px' = px ∧ px < MAX_PER_CH then c else f ch' px'

/-- `setRing` from RGBCtrl.cpp: map the logical index through the ring
mapping and write the pixel; indices past the ring end are dropped. -/
def setRing (cfg : AppConfig) (idx : Nat) (c : RgbColor) (f : Frame) : Frame :=
  match ringMap cfg.count cfg.reverse idx with
  | some (ch, px) => writePx ch px c f
  | none => f

/-- `fillRing` from RGBCtrl.cpp: `for (i=0; i<L; ++i) setRing(i, c)`. -/
def fillRing (cfg : AppConfig) (c : RgbColor) (f : Frame) : Frame :=
  (List.range (ringLen cfg.count)).foldl (fun acc i => setRing cfg i c acc) f

/-- `renderFrame` from RGBCtrl.cpp, lines 780-811: if `masterOff`, fill
the ring with black and return; otherwise dispatch on `CFG.mode`.  The
fourteen animation routines and the playlist are stateful float code;
the dispatch is abstracted as an arbitrary function `anim` of the mode
and the previous frame, so theorems quantifying over `anim` cover every
mode, tick and internal effect state. -/
def renderFrame (anim : Nat → Frame → Frame) (cfg : AppConfig) (f : Frame) :
    Frame :=
  if cfg.masterOff then fillRing cfg ⟨0, 0, 0⟩ f else anim cfg.mode f

/-- Modelled from the spec: the Pixel Sink "applies a global brightness
scalar (0..255) to the whole frame before transmission" (the scaling
itself lives in the Adafruit_NeoPixel library, which is not part of this
repository).  Any multiplicative scaling maps (0,0,0) to (0,0,0). -/
def applyBrightness (b : Nat) (c : RgbColor) : RgbColor :=
  ⟨c.R * b / 255, c.G * b / 255, c.B * b / 255⟩

/-- The within-channel pixel produced by the ring mapping is always a
legal strip index (strips hold `MAX_PER_CH` pixels). -/
theorem ringMap_px_lt (count : Fin 4 → Nat) (rev : Fin 4 → Bool)
    (k : Nat) (ch : Fin 4) (px : Nat)
    (hvalid : ∀ i, count i ≤ MAX_PER_CH)
    (h : ringMap count rev k = some (ch, px)) : px < MAX_PER_CH := by
  have h0 := hvalid 0
  have h1 := hvalid 1
  have h2 := hvalid 2
  have h3 := hvalid 3
  unfold ringMap at h
  split_ifs at h <;>
    (injection h with h'; injection h' with hch hpx; subst hpx) <;>
    (unfold MAX_PER_CH at h0 h1 h2 h3 ⊢; omega)

/-- The ring mapping is defined exactly on `[0, ringLen)`. -/
theorem ringMap_isSome (count : Fin 4 → Nat) (rev : Fin 4 → Bool) (k : Nat) :
    (ringMap count rev k).isSome ↔ k < ringLen count := by
  unfold ringMap ringLen
  split_ifs <;> simp <;> omega

/-- C2: the ring mapping is defined for exactly `L = sum of counts`
logical indices; each logical index `k` maps to exactly one (channel,
within-channel) pair, obtained by walking channels in order CH1..CH4,
and within the channel the pixel is `count[ch]-1-remainder` when
`reverse[ch]` is set and the remainder otherwise. -/
theorem C2_ring_mapping (count : Fin 4 → Nat) (rev : Fin 4 → Bool)
    (hvalid : ∀ i, count i ≤ 50) :
    (∀ k, (ringMap count rev k).isSome ↔ k < ringLen count) ∧
    (∀ s : Fin 4, ∀ j, j < count s →
      ringMap count rev (partialSum count s + j) =
        some (s, if rev s then count s - 1 - j else j)) := by
  constructor
  · exact ringMap_isSome count rev
  · intro s j hj
    have hne : count s ≠ 0 := by omega
    fin_cases s <;>
      simp only [partialSum] at * <;>
      unfold ringMap <;>
      split_ifs <;> simp_all <;> omega

/-- Instance of `C2_ring_mapping` at concrete counts {3,0,2,5} and
reverses {T,F,T,F}: logical index 4 is pixel 0 of channel 2 (third
channel, reversed, remainder 1 of count 2). -/
theorem C2_ring_mapping_witness :
    ringMap (![3, 0, 2, 5] : Fin 4 → Nat) (![true, false, true, false]) 4 =
      some (2, 0) := by
  have h := (C2_ring_mapping (![3, 0, 2, 5] : Fin 4 → Nat)
    (![true, false, true, false]) (by decide)).2 2 1 (by decide)
  simpa using h

/-- Writing at a mapped position stores the written colour. -/
theorem setRing_at (cfg : AppConfig) (i : Nat) (c : RgbColor) (f : Frame)
    (ch : Fin 4) (px : Nat)
    (h : ringMap cfg.count cfg.reverse i = some (ch, px))
    (hpx : px < MAX_PER_CH) : setRing cfg i c f ch px = c := by
  unfold setRing
  rw [h]
  unfold writePx
  simp [hpx]

/-- `setRing` with colour `c` never changes a position already holding `c`. -/
theorem setRing_keep (cfg : AppConfig) (i : Nat) (c : RgbColor) (f : Frame)
    (ch : Fin 4) (px : Nat) (h : f ch px = c) :
    setRing cfg i c f ch px = c := by
  unfold setRing
  cases hm : ringMap cfg.count cfg.reverse i with
  | none => exact h
  | some t =>
      obtain ⟨ch', px'⟩ := t
      show writePx ch' px' c f ch px = c
      unfold writePx
      split_ifs <;> simp [h]

/-- Folding `setRing` with a fixed colour preserves positions that hold it. -/
theorem foldSetRing_keep (cfg : AppConfig) (c : RgbColor) (ch : Fin 4)
    (px : Nat) :
    ∀ (l : List Nat) (f : Frame), f ch px = c →
      (l.foldl (fun acc i => setRing cfg i c acc) f) ch px = c := by
  intro l
  induction l with
  | nil => intro f h; exact h
  | cons a t ih =>
      intro f h
      exact ih _ (setRing_keep cfg a c f ch px h)

/-- After folding `setRing` with colour `c` over a list containing `k`,
the position `k` maps to holds `c`. -/
theorem foldSetRing_write (cfg : AppConfig) (c : RgbColor) (ch : Fin 4)
    (px : Nat) (k : Nat)
    (hmap : ringMap cfg.count cfg.reverse k = some (ch, px))
    (hpx : px < MAX_PER_CH) :
    ∀ (l : List Nat) (f : Frame), k ∈ l →
      (l.foldl (fun acc i => setRing cfg i c acc) f) ch px = c := by
  intro l
  induction l with
  | nil => intro f h; cases h
  | cons a t ih =>
      intro f h
      rcases List.mem_cons.mp h with hk | hk
      · subst hk
        exact foldSetRing_keep cfg c ch px t _
          (setRing_at cfg k c f ch px hmap hpx)
      · exact ih _ hk

/-- C1: with `masterOff = true` the frame produced by `renderFrame` is
all-zero: every logical ring pixel is (0,0,0), whatever the mode, tick
and effect state (`anim`), the previous frame, and the brightness used
for transmission. -/
theorem C1_masterOff_all_zero (cfg : AppConfig) (anim : Nat → Frame → Frame)
    (f0 : Frame) (b k : Nat)
    (hoff : cfg.masterOff = true)
    (hvalid : ∀ i, cfg.count i ≤ MAX_PER_CH)
    (hk : k < ringLen cfg.count) :
    ∃ ch px, ringMap cfg.count cfg.reverse k = some (ch, px) ∧
      renderFrame anim cfg f0 ch px = ⟨0, 0, 0⟩ ∧
      applyBrightness b (renderFrame anim cfg f0 ch px) = ⟨0, 0, 0⟩ := by
  have hsome : (ringMap cfg.count cfg.reverse k).isSome :=
    (ringMap_isSome cfg.count cfg.reverse k).mpr hk
  obtain ⟨⟨ch, px⟩, hmap⟩ := Option.isSome_iff_exists.mp hsome
  have hpx : px < MAX_PER_CH := ringMap_px_lt cfg.count cfg.reverse k ch px hvalid hmap
  refine ⟨ch, px, hmap, ?_⟩
  have hframe : renderFrame anim cfg f0 ch px = ⟨0, 0, 0⟩ := by
    unfold renderFrame
    rw [hoff]
    simp only [if_true]
    exact foldSetRing_write cfg ⟨0, 0, 0⟩ ch px k hmap hpx
      (List.range (ringLen cfg.count)) f0 (List.mem_range.mpr hk)
  refine ⟨hframe, ?_⟩
  rw [hframe]
  unfold applyBrightness
  simp

/-- Instance of `C1_masterOff_all_zero`: defaults with `masterOff` set,
an arbitrary non-trivial effect state (previous frame all white),
brightness 255, ring index 7. -/
theorem C1_masterOff_all_zero_witness :
    ∃ ch px,
      ringMap ({ defaultConfig with masterOff := true } : AppConfig).count
        ({ defaultConfig with masterOff := true } : AppConfig).reverse 7 =
        some (ch, px) ∧
      renderFrame (fun _ f => f) { defaultConfig with masterOff := true }
        (fun _ _ => ⟨255, 255, 255⟩) ch px = ⟨0, 0, 0⟩ ∧
      applyBrightness 255
        (renderFrame (fun _ f => f) { defaultConfig with masterOff := true }
          (fun _ _ => ⟨255, 255, 255⟩) ch px) = ⟨0, 0, 0⟩ :=
  C1_masterOff_all_zero { defaultConfig with masterOff := true }
    (fun _ f => f) (fun _ _ => ⟨255, 255, 255⟩) 255 7
    rfl (by decide) (by decide)

/-! ## Config JSON serialization and parsing (C3, C5)

The ArduinoJson document is abstracted as a record of optional fields:
a key absent from the JSON body is `none`.  The C++ numeric casts
`as<uint8_t>` / `as<uint16_t>` / `as<uint32_t>` are the corresponding
truncations of the stored integer; `as<int>` keeps it. -/

/-- `(uint8_t)` view of a JSON integer. -/
def u8 (x : Int) : Nat := (x % 256).toNat

/-- `(uint16_t)` view of a JSON integer. -/
def u16 (x : Int) : Nat := (x % 65536).toNat

/-- `(uint32_t)` view of a JSON integer. -/
def u32 (x : Int) : Nat := (x % 4294967296).toNat

/-- The JSON document consumed by `parseConfig` / produced by
`configToJson`.  `count` abstracts `doc["count"][i]` (a missing array
element reads as integer 0 in ArduinoJson, which the abstraction folds
into the stored function); `reverse` keeps per-element presence because
the code checks `isNull()` per index. -/
structure ConfigDoc where
  count : Option (Fin 4 → Int)
  brightness : Option Int
  mode : Option Int
  speed : Option Int
  intensity : Option Int
  width : Option Int
  colorA : Option Int
  colorB : Option Int
  colorC : Option Int
  colorD : Option Int
  paletteCount : Option Int
  resumeOnBoot : Option Bool
  enableCpu : Option Bool
  enableFan : Option Bool
  reverse : Option (Fin 4 → Option Bool)
  masterOff : Option Bool
  customLoop : Option Bool
  customSeq : Option String
  inPreview : Option Bool
  buildVersion : Option String
  copyrightTxt : Option String

/-- The document with no keys at all. -/
def emptyDoc : ConfigDoc where
  count := none
  brightness := none
  mode := none
  speed := none
  intensity := none
  width := none
  colorA := none
  colorB := none
  colorC := none
  colorD := none
  paletteCount := none
  resumeOnBoot := none
  enableCpu := none
  enableFan := none
  reverse := none
  masterOff := none
  customLoop := none
  customSeq := none
  inPreview := none
  buildVersion := none
  copyrightTxt := none

/-- `configToJson` from RGBCtrl.cpp lines 819-852: serialize every
configuration field, plus `inPreview` and the display-only
`buildVersion` / `copyright` strings. -/
def configToJson (cfg : AppConfig) (inPrev : Bool) : ConfigDoc where
  count := some fun i => (cfg.count i : Int)
  brightness := some (cfg.brightness : Int)
  mode := some (cfg.mode : Int)
  speed := some (cfg.speed : Int)
  intensity := some (cfg.intensity : Int)
  width := some (cfg.width : Int)
  colorA := some (cfg.colorA : Int)
  colorB := some (cfg.colorB : Int)
  colorC := some (cfg.colorC : Int)
  colorD := some (cfg.colorD : Int)
  paletteCount := some (cfg.paletteCount : Int)
  resumeOnBoot := some cfg.resumeOnBoot
  enableCpu := some cfg.enableCpu
  enableFan := some cfg.enableFan
  reverse := some fun i => some (cfg.reverse i)
  masterOff := some cfg.masterOff
  customLoop := some cfg.customLoop
  customSeq := some cfg.customSeq
  inPreview := some inPrev
  buildVersion := some "1.6.1"
  copyrightTxt := some "(c) Darkone Customs 2025"

/-- `parseConfig` from RGBCtrl.cpp lines 853-911: overlay the document
onto `out`; missing keys leave the current value.  `count` entries are
clamped to `MAX_PER_CH`; `mode` is clamped to `0..MODE_COUNT-1 = 0..14`;
`width` is clamped to `1..255`; `paletteCount` is read as `uint8_t` and
then clamped to `1..4`; `brightness`, `speed` and `intensity` are only
cast to `uint8_t`; colours are read as `uint32_t`. -/
def parseConfig (doc : ConfigDoc) (out : AppConfig) : AppConfig where
  count :=
    match doc.count with
    | some f => fun i =>
        let v := u16 (f i)
        if v > MAX_PER_CH then MAX_PER_CH else v
    | none => out.count
  brightness :=
    match doc.brightness with
    | some v => u8 v
    | none => out.brightness
  mode :=
    match doc.mode with
    | some v =>
        let m := if v < 0 then 0 else v
        (if m > 14 then 14 else m).toNat
    | none => out.mode
  speed :=
    match doc.speed with
    | some v => u8 v
    | none => out.speed
  intensity :=
    match doc.intensity with
    | some v => u8 v
    | none => out.intensity
  width :=
    match doc.width with
    | some v =>
        let w := if v < 1 then 1 else v
        (if w > 255 then 255 else w).toNat
    | none => out.width
  colorA :=
    match doc.colorA with
    | some v => u32 v
    | none => out.colorA
  colorB :=
    match doc.colorB with
    | some v => u32 v
    | none => out.colorB
  colorC :=
    match doc.colorC with
    | some v => u32 v
    | none => out.colorC
  colorD :=
    match doc.colorD with
    | some v => u32 v
    | none => out.colorD
  paletteCount :=
    match doc.paletteCount with
    | some v =>
        let pc := u8 v
        if pc < 1 then 1 else if pc > 4 then 4 else pc
    | none => out.paletteCount
  resumeOnBoot := doc.resumeOnBoot.getD out.resumeOnBoot
  enableCpu := doc.enableCpu.getD out.enableCpu
  enableFan := doc.enableFan.getD out.enableFan
  reverse :=
    match doc.reverse with
    | some f => fun i =>
        match f i with
        | some b => b
        | none => out.reverse i
    | none => out.reverse
  masterOff := doc.masterOff.getD out.masterOff
  customLoop := doc.customLoop.getD out.customLoop
  customSeq := doc.customSeq.getD out.customSeq

/-- A configuration with every field inside its declared range
(spec section 3 data-model table). -/
def ValidConfig (C : AppConfig) : Prop :=
  (∀ i, C.count i ≤ 50) ∧
  1 ≤ C.brightness ∧ C.brightness ≤ 255 ∧
  C.mode ≤ 14 ∧ C.speed ≤ 255 ∧ C.intensity ≤ 255 ∧
  1 ≤ C.width ∧ C.width ≤ 255 ∧
  C.colorA ≤ 0xFFFFFF ∧ C.colorB ≤ 0xFFFFFF ∧
  C.colorC ≤ 0xFFFFFF ∧ C.colorD ≤ 0xFFFFFF ∧
  1 ≤ C.paletteCount ∧ C.paletteCount ≤ 4

/-- The ranges `parseConfig` actually establishes: like `ValidConfig`
but `brightness` may be 0 (it is only cast, not clamped) and colours
are only bounded by the `uint32_t` cast. -/
def ParsedRanges (C : AppConfig) : Prop :=
  (∀ i, C.count i ≤ 50) ∧
  C.brightness ≤ 255 ∧
  C.mode ≤ 14 ∧ C.speed ≤ 255 ∧ C.intensity ≤ 255 ∧
  1 ≤ C.width ∧ C.width ≤ 255 ∧
  C.colorA ≤ 4294967295 ∧ C.colorB ≤ 4294967295 ∧
  C.colorC ≤ 4294967295 ∧ C.colorD ≤ 4294967295 ∧
  1 ≤ C.paletteCount ∧ C.paletteCount ≤ 4

instance (C : AppConfig) : Decidable (ValidConfig C) := by
  unfold ValidConfig
  infer_instance

instance (C : AppConfig) : Decidable (ParsedRanges C) := by
  unfold ParsedRanges
  infer_instance

theorem validConfig_parsedRanges {C : AppConfig} (h : ValidConfig C) :
    ParsedRanges C := by
  obtain ⟨h1, h2, h3, h4, h5, h6, h7, h8, h9, h10, h11, h12, h13, h14⟩ := h
  exact ⟨h1, h3, h4, h5, h6, h7, h8, by omega, by omega, by omega, by omega,
    h13, h14⟩

theorem u8_le (x : Int) : u8 x ≤ 255 := by
  unfold u8
  have h1 : 0 ≤ x % 256 := Int.emod_nonneg x (by omega)
  have h2 : x % 256 < 256 := Int.emod_lt_of_pos x (by omega)
  omega

theorem u16_le (x : Int) : u16 x ≤ 65535 := by
  unfold u16
  have h1 : 0 ≤ x % 65536 := Int.emod_nonneg x (by omega)
  have h2 : x % 65536 < 65536 := Int.emod_lt_of_pos x (by omega)
  omega

theorem u32_le (x : Int) : u32 x ≤ 4294967295 := by
  unfold u32
  have h1 : 0 ≤ x % 4294967296 := Int.emod_nonneg x (by omega)
  have h2 : x % 4294967296 < 4294967296 := Int.emod_lt_of_pos x (by omega)
  omega

theorem u8_id (n : Nat) (h : n ≤ 255) : u8 (n : Int) = n := by
  unfold u8
  rw [Int.emod_eq_of_lt (by omega) (by omega)]
  exact Int.toNat_natCast n

theorem u16_id (n : Nat) (h : n ≤ 65535) : u16 (n : Int) = n := by
  unfold u16
  rw [Int.emod_eq_of_lt (by omega) (by omega)]
  exact Int.toNat_natCast n

theorem u32_id (n : Nat) (h : n ≤ 4294967295) : u32 (n : Int) = n := by
  unfold u32
  rw [Int.emod_eq_of_lt (by omega) (by omega)]
  exact Int.toNat_natCast n

/-- Every numeric field of a parse result is inside the range the code
establishes, provided the overlaid base record was. -/
theorem parse_preserves_ranges (doc : ConfigDoc) (base : AppConfig)
    (hb : ParsedRanges base) : ParsedRanges (parseConfig doc base) := by
  obtain ⟨b1, b2, b3, b4, b5, b6, b7, b8, b9, b10, b11, b12, b13⟩ := hb
  refine ⟨?_, ?_, ?_, ?_, ?_, ?_, ?_, ?_, ?_, ?_, ?_, ?_, ?_⟩ <;>
    simp only [parseConfig]
  · intro i
    cases doc.count with
    | none => exact b1 i
    | some f =>
        simp only []
        split_ifs with h
        · decide
        · unfold MAX_PER_CH at h
          omega
  · cases doc.brightness with
    | none => exact b2
    | some v => exact u8_le v
  · cases doc.mode with
    | none => exact b3
    | some v => simp only []; split_ifs <;> omega
  · cases doc.speed with
    | none => exact b4
    | some v => exact u8_le v
  · cases doc.intensity with
    | none => exact b5
    | some v => exact u8_le v
  · cases doc.width with
    | none => exact b6
    | some v => simp only []; split_ifs <;> omega
  · cases doc.width with
    | none => exact b7
    | some v => simp only []; split_ifs <;> omega
  · cases doc.colorA with
    | none => exact b8
    | some v => exact u32_le v
  · cases doc.colorB with
    | none => exact b9
    | some v => exact u32_le v
  · cases doc.colorC with
    | none => exact b10
    | some v => exact u32_le v
  · cases doc.colorD with
    | none => exact b11
    | some v => exact u32_le v
  · cases doc.paletteCount with
    | none => exact b12
    | some v => simp only []; split_ifs <;> omega
  · cases doc.paletteCount with
    | none => exact b13
    | some v =>
        simp only []
        have := u8_le v
        split_ifs <;> omega

/-- Parsing the serialization of a record whose fields are inside the
parse-established ranges reproduces it exactly, whatever it is overlaid
onto. -/
theorem parse_serialize_id (R base : AppConfig) (inPrev : Bool)
    (hR : ParsedRanges R) :
    parseConfig (configToJson R inPrev) base = R := by
  obtain ⟨r1, r2, r3, r4, r5, r6, r7, r8, r9, r10, r11, r12, r13⟩ := hR
  ext1 <;> simp only [parseConfig, configToJson]
  · funext i
    simp only [u16_id (R.count i) (by have := r1 i; omega)]
    have := r1 i
    split_ifs <;> unfold MAX_PER_CH at * <;> omega
  · exact u8_id R.brightness r2
  · have hpos : ¬((R.mode : Int) < 0) := by omega
    simp only [hpos, if_false]
    split_ifs <;> omega
  · exact u8_id R.speed r4
  · exact u8_id R.intensity r5
  · have h1 : ¬((R.width : Int) < 1) := by omega
    simp only [h1, if_false]
    split_ifs <;> omega
  · exact u32_id R.colorA r8
  · exact u32_id R.colorB r9
  · exact u32_id R.colorC r10
  · exact u32_id R.colorD r11
  · simp only [u8_id R.paletteCount (by omega)]
    split_ifs <;> omega
  · rfl
  · rfl
  · rfl
  · rfl
  · rfl
  · rfl

/-- C3 counterexample to the claim as stated: a JSON body carrying
`brightness = 0` parses to a record whose `brightness` is 0, so the
parse result does NOT serialize with all numeric fields inside their
declared ranges (brightness is declared 1..255). -/
theorem C3_roundtrip_counterexample :
    (parseConfig { emptyDoc with brightness := some 0 } defaultConfig).brightness
      = 0 ∧
    ¬(1 ≤ (parseConfig { emptyDoc with brightness := some 0 }
        defaultConfig).brightness) := by
  constructor
  · rfl
  · decide

/-- C3 (amended): parsing the serialization of a valid configuration
reproduces it on every configuration field, and parse composed with
serialize is idempotent: re-parsing the serialization of any parse
result reproduces that result exactly.  (The original claim's clause
that all numeric fields of a parse result are in declared range fails
for `brightness`, which is only cast to 8 bits, not clamped to 1..255.) -/
theorem C3_config_roundtrip :
    (∀ (C base : AppConfig) (inPrev : Bool), ValidConfig C →
      parseConfig (configToJson C inPrev) base = C) ∧
    (∀ (doc : ConfigDoc) (base base' : AppConfig) (inPrev : Bool),
      ParsedRanges base →
      parseConfig (configToJson (parseConfig doc base) inPrev) base' =
        parseConfig doc base) := by
  constructor
  · intro C base inPrev hC
    exact parse_serialize_id C base inPrev (validConfig_parsedRanges hC)
  · intro doc base base' inPrev hbase
    exact parse_serialize_id (parseConfig doc base) base' inPrev
      (parse_preserves_ranges doc base hbase)

/-- Instance of `C3_config_roundtrip`: the default configuration
round-trips through serialization, and parsing the empty body is
idempotent through serialization. -/
theorem C3_config_roundtrip_witness :
    parseConfig (configToJson defaultConfig false) defaultConfig =
      defaultConfig ∧
    parseConfig
        (configToJson (parseConfig emptyDoc defaultConfig) true)
        defaultConfig =
      parseConfig emptyDoc defaultConfig :=
  ⟨C3_config_roundtrip.1 defaultConfig defaultConfig false (by decide),
   C3_config_roundtrip.2 emptyDoc defaultConfig defaultConfig true (by decide)⟩

/-- C5 counterexample to the claim as stated: a JSON body carrying
`brightness = 256` is accepted by the parser and yields
`brightness = 0`, outside the declared range 1..255. -/
theorem C5_ranges_counterexample :
    (parseConfig { emptyDoc with brightness := some 256 }
        defaultConfig).brightness = 0 ∧
    ¬(1 ≤ (parseConfig { emptyDoc with brightness := some 256 }
        defaultConfig).brightness) := by
  constructor
  · rfl
  · decide

/-- C5 (amended): for every JSON body accepted by the parser (overlaid
onto a base record already inside the parse-established ranges), each
`count[i]` is in 0..50, `width` in 1..255, `paletteCount` in 1..4,
`mode` in 0..14, `speed` and `intensity` in 0..255 — but `brightness`
is only guaranteed 0..255: it is cast to 8 bits, not clamped to
1..255. -/
theorem C5_parse_ranges (doc : ConfigDoc) (base : AppConfig)
    (hb : ParsedRanges base) :
    (∀ i, (parseConfig doc base).count i ≤ 50) ∧
    (parseConfig doc base).brightness ≤ 255 ∧
    1 ≤ (parseConfig doc base).width ∧ (parseConfig doc base).width ≤ 255 ∧
    1 ≤ (parseConfig doc base).paletteCount ∧
    (parseConfig doc base).paletteCount ≤ 4 ∧
    (parseConfig doc base).mode ≤ 14 ∧
    (parseConfig doc base).speed ≤ 255 ∧
    (parseConfig doc base).intensity ≤ 255 := by
  obtain ⟨h1, h2, h3, h4, h5, h6, h7, _, _, _, _, h12, h13⟩ :=
    parse_preserves_ranges doc base hb
  exact ⟨h1, h2, h6, h7, h12, h13, h3, h4, h5⟩

/-- Instance of `C5_parse_ranges` at a hostile body: counts 9999,
width 0, paletteCount 77, mode -3, speed 999. -/
theorem C5_parse_ranges_witness :
    (∀ i, (parseConfig
        { emptyDoc with
            count := some fun _ => 9999
            width := some 0
            paletteCount := some 77
            mode := some (-3)
            speed := some 999 } defaultConfig).count i ≤ 50) ∧
    (parseConfig
        { emptyDoc with
            count := some fun _ => 9999
            width := some 0
            paletteCount := some 77
            mode := some (-3)
            speed := some 999 } defaultConfig).brightness ≤ 255 ∧
    1 ≤ (parseConfig
        { emptyDoc with
            count := some fun _ => 9999
            width := some 0
            paletteCount := some 77
            mode := some (-3)
            speed := some 999 } defaultConfig).width ∧
    (parseConfig
        { emptyDoc with
            count := some fun _ => 9999
            width := some 0
            paletteCount := some 77
            mode := some (-3)
            speed := some 999 } defaultConfig).width ≤ 255 ∧
    1 ≤ (parseConfig
        { emptyDoc with
            count := some fun _ => 9999
            width := some 0
            paletteCount := some 77
            mode := some (-3)
            speed := some 999 } defaultConfig).paletteCount ∧
    (parseConfig
        { emptyDoc with
            count := some fun _ => 9999
            width := some 0
            paletteCount := some 77
            mode := some (-3)
            speed := some 999 } defaultConfig).paletteCount ≤ 4 ∧
    (parseConfig
        { emptyDoc with
            count := some fun _ => 9999
            width := some 0
            paletteCount := some 77
            mode := some (-3)
            speed := some 999 } defaultConfig).mode ≤ 14 ∧
    (parseConfig
        { emptyDoc with
            count := some fun _ => 9999
            width := some 0
            paletteCount := some 77
            mode := some (-3)
            speed := some 999 } defaultConfig).speed ≤ 255 ∧
    (parseConfig
        { emptyDoc with
            count := some fun _ => 9999
            width := some 0
            paletteCount := some 77
            mode := some (-3)
            speed := some 999 } defaultConfig).intensity ≤ 255 :=
  C5_parse_ranges _ defaultConfig (by decide)

/-! ## Frame pacing (C10) -/

/-- The frame period computed at the top of `RGBCtrl::loop`
(RGBCtrl.cpp line 1668): `uint8_t frameMs = 10 + (uint8_t)((255 -
CFG.speed)/2)`.  `CFG.speed` is a `uint8_t`, so `255 - speed` never
underflows; the two `uint8_t` stores are kept as mod-256 reductions. -/
def frameMs (speed : Nat) : Nat :=
  (10 + ((255 - speed) / 2) % 256) % 256

/-- C10: for every speed in 0..255 the frame period equals
`10 + (255 - speed)/2` (integer division, no 8-bit wrap occurs), it is
weakly monotonically non-increasing in speed, and the slowest setting
gives a strictly longer period than the fastest. -/
theorem C10_frame_pacing :
    (∀ s, s ≤ 255 → frameMs s = 10 + (255 - s) / 2) ∧
    (∀ s1 s2, s1 ≤ s2 → s2 ≤ 255 → frameMs s2 ≤ frameMs s1) ∧
    frameMs 255 < frameMs 0 := by
  refine ⟨?_, ?_, ?_⟩
  · intro s _
    unfold frameMs
    omega
  · intro s1 s2 _ _
    unfold frameMs
    omega
  · decide

/-- Instance of `C10_frame_pacing`: speed 128 gives a 73 ms frame and
speed 200 paces no slower than speed 100. -/
theorem C10_frame_pacing_witness :
    frameMs 128 = 10 + (255 - 128) / 2 ∧ frameMs 200 ≤ frameMs 100 :=
  ⟨C10_frame_pacing.1 128 (by decide),
   C10_frame_pacing.2.1 100 200 (by decide) (by decide)⟩

/-! ## Playlist steps (C8, C9) -/

/-- `CustomStep` from RGBCtrl.cpp lines 668-680: a parsed playlist step
with its optional parameter overrides. -/
structure CustomStep where
  mode : Nat := 0
  duration : Nat := 1000
  hasSpeed : Bool := false
  speed : Nat := 0
  hasIntensity : Bool := false
  intensity : Nat := 0
  hasWidth : Bool := false
  width : Nat := 0
  hasPCnt : Bool := false
  pcount : Nat := 0
  hasA : Bool := false
  colorA : Nat := 0
  hasB : Bool := false
  colorB : Nat := 0
  hasC : Bool := false
  colorC : Nat := 0
  hasD : Bool := false
  colorD : Nat := 0

/-- `applyStepOverrides` from RGBCtrl.cpp lines 709-718.  Each present
override is written DIRECTLY into the global `CFG` record (the code has
no scratch copy); the sequential single-field `if` assignments are
embedded as one record update. -/
def applyStepOverrides (s : CustomStep) (cfg : AppConfig) : AppConfig :=
  { cfg with
      speed := if s.hasSpeed then s.speed else cfg.speed
      intensity := if s.hasIntensity then s.intensity else cfg.intensity
      width := if s.hasWidth then s.width else cfg.width
      paletteCount := if s.hasPCnt then s.pcount else cfg.paletteCount
      colorA := if s.hasA then s.colorA else cfg.colorA
      colorB := if s.hasB then s.colorB else cfg.colorB
      colorC := if s.hasC then s.colorC else cfg.colorC
      colorD := if s.hasD then s.colorD else cfg.colorD }

/-- C8 counterexample to the claim as stated: entering a step carrying a
`speed` override rewrites the persistent configuration record itself —
`applyStepOverrides` targets the global `CFG`, not a scratch view.  With
the default config (speed 128) and a step overriding speed to 7, the
record afterwards differs from the record before. -/
theorem C8_overrides_counterexample :
    (applyStepOverrides { hasSpeed := true, speed := 7 } defaultConfig).speed
        = 7 ∧
    defaultConfig.speed = 128 ∧
    applyStepOverrides { hasSpeed := true, speed := 7 } defaultConfig ≠
      defaultConfig := by
  refine ⟨rfl, rfl, fun h => ?_⟩
  have h7 := congrArg AppConfig.speed h
  simp [applyStepOverrides, defaultConfig] at h7

/-- C8 (amended): on entering a step, each present override (speed,
intensity, width, paletteCount, colorA..colorD) is written directly
into the persistent configuration record; fields without an override,
and every non-overridable field (counts, brightness, mode, reverse,
masterOff, customSeq, customLoop, booleans), keep their previous
values.  There is no scratch view. -/
theorem C8_overrides_persistent (s : CustomStep) (cfg : AppConfig) :
    (applyStepOverrides s cfg).speed =
      (if s.hasSpeed then s.speed else cfg.speed) ∧
    (applyStepOverrides s cfg).intensity =
      (if s.hasIntensity then s.intensity else cfg.intensity) ∧
    (applyStepOverrides s cfg).width =
      (if s.hasWidth then s.width else cfg.width) ∧
    (applyStepOverrides s cfg).paletteCount =
      (if s.hasPCnt then s.pcount else cfg.paletteCount) ∧
    (applyStepOverrides s cfg).colorA =
      (if s.hasA then s.colorA else cfg.colorA) ∧
    (applyStepOverrides s cfg).colorB =
      (if s.hasB then s.colorB else cfg.colorB) ∧
    (applyStepOverrides s cfg).colorC =
      (if s.hasC then s.colorC else cfg.colorC) ∧
    (applyStepOverrides s cfg).colorD =
      (if s.hasD then s.colorD else cfg.colorD) ∧
    (applyStepOverrides s cfg).count = cfg.count ∧
    (applyStepOverrides s cfg).brightness = cfg.brightness ∧
    (applyStepOverrides s cfg).mode = cfg.mode ∧
    (applyStepOverrides s cfg).reverse = cfg.reverse ∧
    (applyStepOverrides s cfg).masterOff = cfg.masterOff ∧
    (applyStepOverrides s cfg).customSeq = cfg.customSeq ∧
    (applyStepOverrides s cfg).customLoop = cfg.customLoop ∧
    (applyStepOverrides s cfg).resumeOnBoot = cfg.resumeOnBoot ∧
    (applyStepOverrides s cfg).enableCpu = cfg.enableCpu ∧
    (applyStepOverrides s cfg).enableFan = cfg.enableFan := by
  unfold applyStepOverrides
  refine ⟨rfl, rfl, rfl, rfl, rfl, rfl, rfl, rfl, rfl, rfl, rfl, rfl, rfl,
    rfl, rfl, rfl, rfl, rfl⟩

/-- The step-advance logic at the end of `animCustom` (RGBCtrl.cpp
lines 769-776): on a tick at wall time `now`, if `now - stepStart`
reaches the current step's duration, advance `idx` and restart the step
clock; past the last of the `n` steps, wrap to 0 when `customLoop` and
hold the last step otherwise.  The state is `(idx, stepStart)`. -/
def stepAdvance (n : Nat) (loopFlag : Bool) (dur : Nat → Nat)
    (st : Nat × Nat) (now : Nat) : Nat × Nat :=
  if now - st.2 ≥ dur st.1 then
    (if st.1 + 1 ≥ n then (if loopFlag then 0 else n - 1) else st.1 + 1, now)
  else st

/-- The playlist engine ticked once per millisecond at times 0..t,
starting from step 0 with the step clock armed at time 0 (the state
`animCustom` installs when it (re)parses the sequence). -/
def runTicks (n : Nat) (loopFlag : Bool) (dur : Nat → Nat) : Nat → Nat × Nat
  | 0 => stepAdvance n loopFlag dur (0, 0) 0
  | t + 1 => stepAdvance n loopFlag dur (runTicks n loopFlag dur t) (t + 1)

/-- The wrap of a held (non-looping) step index is again a held index. -/
theorem wrap_min (n q : Nat) (hn : 1 ≤ n) :
    (if min q (n - 1) + 1 ≥ n then n - 1 else min q (n - 1) + 1) =
      min (q + 1) (n - 1) := by
  split_ifs <;> omega

/-- The wrap of a looping step index is the successor modulo `n`. -/
theorem wrap_mod (n q : Nat) (hn : 1 ≤ n) :
    (if q % n + 1 ≥ n then 0 else q % n + 1) = (q + 1) % n := by
  by_cases hn1 : n = 1
  · subst hn1
    simp [Nat.mod_one]
  · have hqlt : q % n < n := Nat.mod_lt _ (by omega)
    have haddm : (q + 1) % n = (q % n + 1) % n := by
      conv_lhs => rw [Nat.add_mod]
      rw [Nat.mod_eq_of_lt (show 1 < n by omega)]
    rw [haddm]
    split_ifs with hge
    · rw [show q % n + 1 = n by omega, Nat.mod_self]
    · rw [Nat.mod_eq_of_lt (show q % n + 1 < n by omega)]

/-- Closed form of the playlist state under equal step durations `D`:
after the tick at time `t` the engine is on step `(t/D) mod n` when
looping and `min (t/D) (n-1)` otherwise, with the step clock last armed
at `(t/D)*D`. -/
theorem runTicks_closed (n : Nat) (lf : Bool) (D : Nat)
    (hn : 1 ≤ n) (hD : 1 ≤ D) :
    ∀ t, runTicks n lf (fun _ => D) t =
      ((if lf then (t / D) % n else min (t / D) (n - 1)), (t / D) * D) := by
  intro t
  induction t with
  | zero =>
      unfold runTicks stepAdvance
      simp only [Nat.zero_div, Nat.zero_mod, Nat.zero_min, Nat.zero_mul]
      split_ifs <;> simp_all
  | succ t ih =>
      obtain ⟨q, r, hqr, hrD, hq⟩ :
          ∃ q r, D * q + r = t ∧ r < D ∧ q = t / D :=
        ⟨t / D, t % D, Nat.div_add_mod t D, Nat.mod_lt _ (by omega), rfl⟩
      have hcomm : q * D = D * q := Nat.mul_comm q D
      unfold runTicks
      rw [ih, ← hq]
      by_cases hadv : r + 1 = D
      · have hsucc : D * (q + 1) = D * q + D := by ring
        have ht1 : t + 1 = D * (q + 1) := by omega
        have hdiv : (t + 1) / D = q + 1 := by
          rw [ht1, Nat.mul_div_cancel_left _ (show 0 < D by omega)]
        have hcond : t + 1 - q * D ≥ D := by omega
        have hsnd : t + 1 = (q + 1) * D := by
          have h2 : (q + 1) * D = D * (q + 1) := by ring
          omega
        unfold stepAdvance
        simp only []
        rw [if_pos hcond, hdiv]
        cases lf with
        | false =>
            simp only [Bool.false_eq_true, if_false]
            rw [Prod.mk.injEq]
            exact ⟨wrap_min n q hn, hsnd⟩
        | true =>
            simp only [if_true]
            rw [Prod.mk.injEq]
            exact ⟨wrap_mod n q hn, hsnd⟩
      · have hdiv : (t + 1) / D = q := by
          rw [show t + 1 = (r + 1) + D * q by omega,
              Nat.add_mul_div_left _ _ (show 0 < D by omega),
              Nat.div_eq_of_lt (show r + 1 < D by omega)]
          omega
        have hcond : ¬(t + 1 - q * D ≥ D) := by omega
        unfold stepAdvance
        simp only []
        rw [if_neg hcond, hdiv]

/-- C9: each tick the index advances exactly when the elapsed wall time
since the step start reaches the current step's duration, wrapping to 0
past the last step when `customLoop` and holding step `n-1` otherwise;
consequently with `n` equal-duration-`D` steps, after `n*D + eps`
milliseconds (`eps < D`) the engine holds step `n-1` without loop and
is back on step 0 with loop. -/
theorem C9_playlist_advance (n D eps : Nat)
    (hn : 1 ≤ n) (hD : 1 ≤ D) (heps : eps < D) :
    (∀ (lf : Bool) (dur : Nat → Nat) (idx start now : Nat),
      stepAdvance n lf dur (idx, start) now =
        if now - start ≥ dur idx then
          (if idx + 1 ≥ n then (if lf then 0 else n - 1) else idx + 1, now)
        else (idx, start)) ∧
    (runTicks n false (fun _ => D) (n * D + eps)).1 = n - 1 ∧
    (runTicks n true (fun _ => D) (n * D + eps)).1 = 0 := by
  have hdiv : (n * D + eps) / D = n := by
    rw [show n * D + eps = eps + D * n by ring,
        Nat.add_mul_div_left _ _ (by omega : 0 < D),
        Nat.div_eq_of_lt (by omega : eps < D)]
    omega
  refine ⟨fun lf dur idx start now => rfl, ?_, ?_⟩
  · rw [runTicks_closed n false D hn hD (n * D + eps)]
    simp only [if_neg Bool.false_ne_true, hdiv]
    omega
  · rw [runTicks_closed n true D hn hD (n * D + eps)]
    simp [hdiv]

/-- Instance of `C9_playlist_advance`: three steps of 100 ms each; at
t = 305 ms the engine holds step 2 without loop and is on step 0 with
loop. -/
theorem C9_playlist_advance_witness :
    (runTicks 3 false (fun _ => 100) 305).1 = 2 ∧
    (runTicks 3 true (fun _ => 100) 305).1 = 0 :=
  ⟨(C9_playlist_advance 3 100 5 (by decide) (by decide) (by decide)).2.1,
   (C9_playlist_advance 3 100 5 (by decide) (by decide) (by decide)).2.2⟩

/-! ## UDP control plane: pending / coalesced work (C6, C7)

From the quiet-window revision of RGBudp.cpp.  A classified JSON packet
is a `UdpMsg`; the module statics `pendHasCfg`, `pendIsSave`,
`pendJson`, `pendHasCounts`, `pendCounts`, `pendDoReset`, `pendHasRaw`,
`pendRawBuf` become the fields of `UdpState`.  Wall-clock readings of
`micros() - t0` inside `processPending` are passed explicitly:
`e1` is the elapsed time observed at the budget check after the reset
item, `e2` at the check after the counts item. -/

/-- A JSON packet after deserialization and `op` dispatch
(`handleJsonPacket` in RGBudp.cpp).  `preview`/`save` carry the
normalized cfg JSON string. -/
inductive UdpMsg where
  | preview (js : String)
  | save (js : String)
  | reset
  | setCounts (c0 c1 c2 c3 : Nat)
  | get
  | discover
  | other
  deriving DecidableEq, Repr

/-- The pending/coalesced-work statics of RGBudp.cpp lines 228-242. -/
structure UdpState where
  pendHasCfg : Bool
  pendIsSave : Bool
  pendJson : String
  pendHasCounts : Bool
  pendCounts : Nat × Nat × Nat × Nat
  pendDoReset : Bool
  pendHasRaw : Bool
  pendRawBuf : UdpMsg
  deriving DecidableEq, Repr

/-- The state at module start: nothing pending. -/
def cleanUdp : UdpState where
  pendHasCfg := false
  pendIsSave := false
  pendJson := ""
  pendHasCounts := false
  pendCounts := (0, 0, 0, 0)
  pendDoReset := false
  pendHasRaw := false
  pendRawBuf := UdpMsg.other

/-- A heavy operation actually performed by `processPending` (the calls
into `RGBCtrl` and the deferred-raw handling). -/
inductive HeavyAct where
  | handleRaw (m : UdpMsg)
  | doReset
  | doCounts (c : Nat × Nat × Nat × Nat)
  | applyCfg (isSave : Bool) (js : String)
  deriving DecidableEq, Repr

/-- Priority rank of a heavy operation: raw-deferred, reset, counts,
cfg. -/
def HeavyAct.rank : HeavyAct → Nat
  | .handleRaw _ => 0
  | .doReset => 1
  | .doCounts _ => 2
  | .applyCfg _ _ => 3

/-- `handleJsonPacket` from RGBudp.cpp lines 372-418, restricted to its
effect on the pending state: `preview`/`save` normalize the body and
queue it in the single latest-wins cfg slot (`queuePreviewOrSave`),
`reset` raises the reset flag, `setCounts` fills the counts slot;
`get`/`discover`/errors only send replies. -/
def handleJsonPacket (m : UdpMsg) (st : UdpState) : UdpState :=
  match m with
  | .preview js => { st with pendJson := js, pendIsSave := false, pendHasCfg := true }
  | .save js => { st with pendJson := js, pendIsSave := true, pendHasCfg := true }
  | .reset => { st with pendDoReset := true }
  | .setCounts c0 c1 c2 c3 =>
      { st with pendCounts := (c0, c1, c2, c3), pendHasCounts := true }
  | _ => st

/-- `processPending(budget_us)` from RGBudp.cpp lines 248-285.  Returns
the new pending state together with the list of heavy items performed,
in order.  A deferred raw packet (when no quiet window is active) is
handled and the call returns at once; otherwise reset, counts and cfg
are each handled if pending, in that order, returning early when the
elapsed time (`e1` after reset, `e2` after counts) has reached the
budget. -/
def processPending (quiet : Bool) (e1 e2 budget : Nat) (st : UdpState) :
    UdpState × List HeavyAct :=
  if st.pendHasRaw && !quiet then
    (handleJsonPacket st.pendRawBuf { st with pendHasRaw := false },
     [HeavyAct.handleRaw st.pendRawBuf])
  else
    let stR := if st.pendDoReset then { st with pendDoReset := false } else st
    let aR : List HeavyAct := if st.pendDoReset then [HeavyAct.doReset] else []
    if st.pendDoReset && decide (e1 ≥ budget) then (stR, aR)
    else
      let stC := if stR.pendHasCounts then { stR with pendHasCounts := false }
        else stR
      let aC : List HeavyAct := if stR.pendHasCounts then
        [HeavyAct.doCounts stR.pendCounts] else []
      if stR.pendHasCounts && decide (e2 ≥ budget) then (stC, aR ++ aC)
      else
        if stC.pendHasCfg then
          ({ stC with pendHasCfg := false },
           aR ++ aC ++ [HeavyAct.applyCfg stC.pendIsSave stC.pendJson])
        else (stC, aR ++ aC)

/-- The receive path of `RGBCtrlUDP::loop` for a JSON packet (RGBudp.cpp
lines 461-475): while a quiet window is active the packet is copied to
the single raw slot, overwriting any older one; otherwise it is handled
at once. -/
def udpRecvJson (quiet : Bool) (m : UdpMsg) (st : UdpState) : UdpState :=
  if quiet then { st with pendHasRaw := true, pendRawBuf := m }
  else handleJsonPacket m st

/-- Repeatedly invoke `processPending` (`k` passes of the main loop),
collecting the heavy items performed. -/
def drainPending (quiet : Bool) (e1 e2 budget : Nat) :
    Nat → UdpState → UdpState × List HeavyAct
  | 0, st => (st, [])
  | k + 1, st =>
      let p := processPending quiet e1 e2 budget st
      let d := drainPending quiet e1 e2 budget k p.1
      (d.1, p.2 ++ d.2)

/-- Is a heavy item a config apply? -/
def HeavyAct.isApply : HeavyAct → Bool
  | .applyCfg _ _ => true
  | _ => false

/-- C7 counterexample to the claim as stated: with reset, counts and cfg
all pending and the item work finishing inside the budget (elapsed
readings 0 of a 1500 us budget, as in the firmware's calls), a SINGLE
invocation of `processPending` performs three heavy items, not at most
one. -/
theorem C7_one_item_counterexample :
    (processPending false 0 0 1500
        { cleanUdp with
            pendDoReset := true
            pendHasCounts := true
            pendCounts := (1, 2, 3, 4)
            pendHasCfg := true
            pendJson := "x" }).2 =
      [HeavyAct.doReset, HeavyAct.doCounts (1, 2, 3, 4),
       HeavyAct.applyCfg false "x"] ∧
    ¬((processPending false 0 0 1500
        { cleanUdp with
            pendDoReset := true
            pendHasCounts := true
            pendCounts := (1, 2, 3, 4)
            pendHasCfg := true
            pendJson := "x" }).2.length ≤ 1) := by
  constructor
  · rfl
  · decide

/-- C7 (amended): one invocation of `processPending` takes pending items
in the priority order raw-deferred, reset, counts, cfg, each kind at
most once; a raw-deferred item is processed alone (the call returns at
once); the other kinds may all run in the same invocation when the
budget is not exhausted, so an invocation performs up to three heavy
items (not at most one). -/
theorem C7_priority_order (quiet : Bool) (e1 e2 budget : Nat)
    (st : UdpState) :
    List.Sublist ((processPending quiet e1 e2 budget st).2.map HeavyAct.rank)
      [0, 1, 2, 3] ∧
    (∀ m, HeavyAct.handleRaw m ∈ (processPending quiet e1 e2 budget st).2 →
      (processPending quiet e1 e2 budget st).2 = [HeavyAct.handleRaw m]) ∧
    (processPending quiet e1 e2 budget st).2.length ≤ 3 := by
  cases hRaw : st.pendHasRaw <;> cases hQ : quiet <;>
    cases hR : st.pendDoReset <;> cases hC : st.pendHasCounts <;>
    cases hCfg : st.pendHasCfg <;>
    simp_all [processPending, HeavyAct.rank] <;>
    first
      | decide
      | (split_ifs <;> simp_all [HeavyAct.rank] <;> decide)

/-- Instance of `C7_priority_order` at a state with only a raw item
pending: the invocation handles it alone. -/
theorem C7_priority_order_witness :
    (processPending false 3 4 1500
        { cleanUdp with
            pendHasRaw := true
            pendRawBuf := UdpMsg.reset }).2 =
      [HeavyAct.handleRaw UdpMsg.reset] :=
  (C7_priority_order false 3 4 1500
      { cleanUdp with pendHasRaw := true, pendRawBuf := UdpMsg.reset }).2.1
    UdpMsg.reset (by decide)

/-! ### The quiet-window coalescing scenario (C6) -/

/-- An event observed while the SMBus quiet window is active: a JSON
`preview` request arriving (RGBudp.cpp lines 461-472 copy it into the
single raw slot) or a pass of the main loop (which calls
`processPending(1500)` with the quiet window still up). -/
inductive WinEv where
  | recv (js : String)
  | tick (e1 e2 budget : Nat)

/-- One event of the quiet window, threading the pending state and
accumulating the heavy items performed. -/
def windowStep (acc : UdpState × List HeavyAct) (ev : WinEv) :
    UdpState × List HeavyAct :=
  match ev with
  | .recv js => (udpRecvJson true (UdpMsg.preview js) acc.1, acc.2)
  | .tick e1 e2 b =>
      let p := processPending true e1 e2 b acc.1
      (p.1, acc.2 ++ p.2)

/-- Run a whole quiet window from the idle state. -/
def runWindow (evs : List WinEv) : UdpState × List HeavyAct :=
  evs.foldl windowStep (cleanUdp, [])

/-- The payloads of the preview requests of a window, in arrival order. -/
def windowPayloads : List WinEv → List String
  | [] => []
  | .recv js :: t => js :: windowPayloads t
  | .tick _ _ _ :: t => windowPayloads t

/-- The idle state, holding a deferred raw `preview` packet when the
option is set. -/
def stOf : Option String → UdpState
  | none => cleanUdp
  | some js =>
      { cleanUdp with pendHasRaw := true, pendRawBuf := UdpMsg.preview js }

theorem foldl_lastWins :
    ∀ (l : List String) (r : Option String),
      l.foldl (fun _ js => some js) r = l.getLast?.or r := by
  intro l
  induction l with
  | nil => intro r; rfl
  | cons a t ih =>
      intro r
      cases t with
      | nil => rfl
      | cons b t' =>
          show (b :: t').foldl (fun _ js => some js) (some a) = _
          rw [ih (some a), List.getLast?_cons_cons]
          cases hl : (b :: t').getLast? with
          | none => simp_all
          | some x => rfl

theorem runWindow_inv :
    ∀ (evs : List WinEv) (r : Option String) (acc : List HeavyAct),
      evs.foldl windowStep (stOf r, acc) =
        (stOf ((windowPayloads evs).foldl (fun _ js => some js) r), acc) := by
  intro evs
  induction evs with
  | nil => intro r acc; rfl
  | cons ev t ih =>
      intro r acc
      cases ev with
      | recv js =>
          have hstep :
              windowStep (stOf r, acc) (WinEv.recv js) = (stOf (some js), acc) := by
            cases r <;> rfl
          rw [List.foldl_cons, hstep, ih (some js) acc]
          rfl
      | tick e1 e2 b =>
          have hstep :
              windowStep (stOf r, acc) (WinEv.tick e1 e2 b) = (stOf r, acc) := by
            cases r <;> simp [windowStep, processPending, stOf, cleanUdp]
          rw [List.foldl_cons, hstep, ih r acc]
          rfl

/-- `processPending` is a no-op on a state with no pending flags set. -/
theorem processPending_noflags (q : Bool) (e1 e2 b : Nat) (st : UdpState)
    (h1 : st.pendHasRaw = false) (h2 : st.pendDoReset = false)
    (h3 : st.pendHasCounts = false) (h4 : st.pendHasCfg = false) :
    processPending q e1 e2 b st = (st, []) := by
  simp [processPending, h1, h2, h3, h4]

theorem drainPending_noflags (q : Bool) (e1 e2 b : Nat) (st : UdpState)
    (h1 : st.pendHasRaw = false) (h2 : st.pendDoReset = false)
    (h3 : st.pendHasCounts = false) (h4 : st.pendHasCfg = false) :
    ∀ k, drainPending q e1 e2 b k st = (st, []) := by
  intro k
  induction k with
  | zero => rfl
  | succ k ih =>
      unfold drainPending
      rw [processPending_noflags q e1 e2 b st h1 h2 h3 h4]
      simp only []
      rw [ih]
      rfl

/-- C6: preview requests arriving while a quiet window is active perform
no heavy work and land in the single latest-wins raw slot; once the
window closes, the subsequent loop passes perform exactly one config
apply, whose payload is the last one received during the window — the
earlier payloads are overwritten and never applied. -/
theorem C6_quiet_coalescing (evs : List WinEv) (e1 e2 budget k : Nat)
    (hne : windowPayloads evs ≠ []) (hk : 2 ≤ k) :
    (runWindow evs).2 = [] ∧
    ((drainPending false e1 e2 budget k (runWindow evs).1).2.filter
        HeavyAct.isApply) =
      [HeavyAct.applyCfg false ((windowPayloads evs).getLast?.getD "")] := by
  have hw : runWindow evs =
      (stOf ((windowPayloads evs).foldl (fun _ js => some js) none), []) :=
    runWindow_inv evs none []
  obtain ⟨p, hp⟩ : ∃ p, (windowPayloads evs).getLast? = some p := by
    cases hl : (windowPayloads evs).getLast? with
    | none => exact absurd (List.getLast?_eq_none_iff.mp hl) hne
    | some x => exact ⟨x, rfl⟩
  have hfold : (windowPayloads evs).foldl (fun _ js => some js) none = some p := by
    rw [foldl_lastWins, hp]
    rfl
  rw [hw, hfold]
  refine ⟨rfl, ?_⟩
  obtain ⟨j, hj⟩ : ∃ j, k = j + 2 := ⟨k - 2, by omega⟩
  subst hj
  have h1 : processPending false e1 e2 budget (stOf (some p)) =
      ({ cleanUdp with
          pendHasCfg := true
          pendJson := p
          pendRawBuf := UdpMsg.preview p },
       [HeavyAct.handleRaw (UdpMsg.preview p)]) := by
    simp [processPending, stOf, cleanUdp, handleJsonPacket]
  have h2 : processPending false e1 e2 budget
      ({ cleanUdp with
          pendHasCfg := true
          pendJson := p
          pendRawBuf := UdpMsg.preview p } : UdpState) =
      ({ cleanUdp with pendJson := p, pendRawBuf := UdpMsg.preview p },
       [HeavyAct.applyCfg false p]) := by
    simp [processPending, cleanUdp]
  rw [hp]
  show ((drainPending false e1 e2 budget (j + 2) (stOf (some p))).2.filter
      HeavyAct.isApply) = [HeavyAct.applyCfg false p]
  have hstep : drainPending false e1 e2 budget (j + 2) (stOf (some p)) =
      (({ cleanUdp with pendJson := p, pendRawBuf := UdpMsg.preview p } :
          UdpState),
        [HeavyAct.handleRaw (UdpMsg.preview p)] ++
          ([HeavyAct.applyCfg false p] ++ [])) := by
    show drainPending false e1 e2 budget (j + 1 + 1) (stOf (some p)) = _
    simp only [drainPending, h1, h2]
    rw [drainPending_noflags false e1 e2 budget
      ({ cleanUdp with pendJson := p, pendRawBuf := UdpMsg.preview p } :
        UdpState) rfl rfl rfl rfl j]
  rw [hstep]
  simp [HeavyAct.isApply]

/-- Instance of `C6_quiet_coalescing`: three previews with brightness
payloads "10", "50", "200" arrive inside the window, interleaved with
loop passes; after the window, two loop passes perform exactly the
single apply of "200". -/
theorem C6_quiet_coalescing_witness :
    (runWindow [WinEv.recv "10", WinEv.tick 0 0 1500, WinEv.recv "50",
        WinEv.recv "200", WinEv.tick 7 7 1500]).2 = [] ∧
    ((drainPending false 0 0 1500 2
        (runWindow [WinEv.recv "10", WinEv.tick 0 0 1500, WinEv.recv "50",
          WinEv.recv "200", WinEv.tick 7 7 1500]).1).2.filter
        HeavyAct.isApply) =
      [HeavyAct.applyCfg false "200"] :=
  C6_quiet_coalescing
    [WinEv.recv "10", WinEv.tick 0 0 1500, WinEv.recv "50",
     WinEv.recv "200", WinEv.tick 7 7 1500]
    0 0 1500 2 (by decide) (by decide)

/-! ## Palette sampling (C4)

`samplePalette` (RGBCtrl.cpp lines 249-260) and `lerp` (lines 236-243)
compute in single-precision float; the claim quantifies over every real
sample position, so the float arithmetic is idealised as exact rational
arithmetic: `fmodf(x, 1.0f)` is `x` minus its truncation toward zero,
`floorf` is the exact floor, the C `%` on ints is `Int.tmod`, and the
float-to-integer casts truncate toward zero. -/

/-- Truncation toward zero (the C float-to-int cast, and the quotient
underlying `fmodf`). -/
def truncQ (x : ℚ) : ℤ := if 0 ≤ x then ⌊x⌋ else ⌈x⌉

/-- `fmodf(x, 1.0f)`: the remainder of x toward zero. -/
def fmodf1 (x : ℚ) : ℚ := x - truncQ x

/-- `lerp` from RGBCtrl.cpp lines 236-243: clamp the parameter to
[0, 1], then blend each channel as `(uint8_t)(a + (b - a) * t)`. -/
def lerp (a b : RgbColor) (t : ℚ) : RgbColor :=
  let t' := if t < 0 then 0 else if t > 1 then 1 else t
  ⟨(truncQ ((a.R : ℚ) + ((b.R : ℚ) - (a.R : ℚ)) * t')).toNat,
   (truncQ ((a.G : ℚ) + ((b.G : ℚ) - (a.G : ℚ)) * t')).toNat,
   (truncQ ((a.B : ℚ) + ((b.B : ℚ) - (a.B : ℚ)) * t')).toNat⟩

/-- `samplePalette` from RGBCtrl.cpp lines 249-260: single palette entry
for `n = 1`; otherwise normalise x into [0,1) with `fmodf` (adding 1
when negative), scale by `n`, take `i0 = (int)floorf(pos) % n`,
`i1 = (i0+1) % n`, `t = pos - floorf(pos)`; a blend of 0 returns the
hard step `p[i0]`, otherwise interpolate by `t * (blend/255)`. -/
def samplePalette (x : ℚ) (n : Nat) (p : Nat → RgbColor) (blend : Nat) :
    RgbColor :=
  if n = 1 then p 0
  else
    let fx0 := fmodf1 x
    let fx := if fx0 < 0 then fx0 + 1 else fx0
    let pos := fx * n
    let i0 := Int.tmod ⌊pos⌋ n
    let i1 := Int.tmod (i0 + 1) n
    let t := pos - ⌊pos⌋
    if blend = 0 then p i0.toNat
    else lerp (p i0.toNat) (p i1.toNat) (t * ((blend : ℚ) / 255))

/-- The palette sampler as the specification words it: `pos =
fract(x)*n`, `i0 = ⌊pos⌋ mod n`, `i1 = (i0+1) mod n`, `t = pos − ⌊pos⌋`,
blend `p[i0]` toward `p[i1]` by `t * (intensity/255)`; hard step when
the blend is 0; `p[0]` when `n = 1`. -/
def samplePaletteSpec (x : ℚ) (n : Nat) (p : Nat → RgbColor)
    (blend : Nat) : RgbColor :=
  if n = 1 then p 0
  else
    let pos := Int.fract x * n
    let i0 := (⌊pos⌋ % (n : ℤ)).toNat
    let i1 := (i0 + 1) % n
    let t := Int.fract pos
    if blend = 0 then p i0
    else lerp (p i0) (p i1) (t * ((blend : ℚ) / 255))

/-- The `fmodf`-based normalisation of the sample position equals the
mathematical fractional part. -/
theorem fmod_norm (x : ℚ) :
    (if fmodf1 x < 0 then fmodf1 x + 1 else fmodf1 x) = Int.fract x := by
  unfold fmodf1 truncQ
  by_cases hx : 0 ≤ x
  · rw [if_pos hx]
    have h0 : 0 ≤ x - (⌊x⌋ : ℚ) := by
      have := Int.floor_le x
      linarith
    rw [if_neg (not_lt.mpr h0), Int.self_sub_floor]
  · rw [if_neg hx]
    push_neg at hx
    by_cases hceil : x - (⌈x⌉ : ℚ) < 0
    · rw [if_pos hceil]
      have hlt : x < (⌈x⌉ : ℚ) := by linarith
      have hfl : (⌊x⌋ : ℚ) ≤ x := Int.floor_le x
      have h1 : ⌊x⌋ < ⌈x⌉ := by exact_mod_cast lt_of_le_of_lt hfl hlt
      have h2 : ⌈x⌉ ≤ ⌊x⌋ + 1 := Int.ceil_le_floor_add_one x
      have h3 : ⌈x⌉ = ⌊x⌋ + 1 := by omega
      rw [h3, ← Int.self_sub_floor x]
      push_cast
      ring
    · rw [if_neg hceil]
      push_neg at hceil
      have hxe : x = (⌈x⌉ : ℚ) := le_antisymm (Int.le_ceil x) (by linarith)
      obtain ⟨m, hm⟩ : ∃ m : ℤ, (m : ℚ) = x := ⟨⌈x⌉, hxe.symm⟩
      rw [← hm, Int.ceil_intCast, Int.fract_intCast]
      ring

/-- The C `%`-successor of an in-range index, cast to `Nat`, is the
`Nat`-mod successor. -/
theorem tmod_succ_toNat (a : ℤ) (n : Nat) (h0 : 0 ≤ a) (hn : a < n) :
    (Int.tmod (a + 1) (n : ℤ)).toNat = (a.toNat + 1) % n := by
  rw [Int.tmod_eq_emod (by omega) (by omega)]
  obtain ⟨b, rfl⟩ : ∃ b : ℕ, a = (b : ℤ) :=
    ⟨a.toNat, (Int.toNat_of_nonneg h0).symm⟩
  have h1 : ((b : ℤ) + 1) % ((n : ℕ) : ℤ) = (((b + 1) % n : ℕ) : ℤ) := by
    push_cast
    ring
  rw [h1, Int.toNat_natCast, Int.toNat_natCast]

/-- C4: the palette sampler returns `p[0]` bit-exact for every sample
position when `n = 1`; with blend 0 it returns the hard step `p[i0]`,
`i0 = ⌊fract(x)·n⌋ mod n`; and in general it agrees with the
specification's formula (interpolating `p[i0]` toward `p[(i0+1) mod n]`
by `t · blend/255`, `t = pos − ⌊pos⌋`). -/
theorem C4_palette_sampling (x : ℚ) (n blend : Nat) (p : Nat → RgbColor)
    (hn1 : 1 ≤ n) (hn4 : n ≤ 4) (hb : blend ≤ 255) :
    (n = 1 → samplePalette x n p blend = p 0) ∧
    (blend = 0 → samplePalette x n p blend =
      p ((⌊Int.fract x * (n : ℚ)⌋ % (n : ℤ)).toNat)) ∧
    samplePalette x n p blend = samplePaletteSpec x n p blend := by
  have key : samplePalette x n p blend = samplePaletteSpec x n p blend := by
    by_cases hone : n = 1
    · subst hone
      unfold samplePalette samplePaletteSpec
      rw [if_pos rfl, if_pos rfl]
    · have hF0 : 0 ≤ Int.fract x := Int.fract_nonneg x
      have hF1 : Int.fract x < 1 := Int.fract_lt_one x
      have hnq : (0 : ℚ) < (n : ℚ) := by
        exact_mod_cast (by omega : 0 < n)
      have hpos0 : 0 ≤ Int.fract x * (n : ℚ) := mul_nonneg hF0 (le_of_lt hnq)
      have hposn : Int.fract x * (n : ℚ) < (n : ℚ) := by
        calc Int.fract x * (n : ℚ) < 1 * (n : ℚ) :=
              mul_lt_mul_of_pos_right hF1 hnq
          _ = (n : ℚ) := one_mul _
      have h0 : 0 ≤ ⌊Int.fract x * (n : ℚ)⌋ := Int.floor_nonneg.mpr hpos0
      have hn' : ⌊Int.fract x * (n : ℚ)⌋ < (n : ℤ) := by
        rw [Int.floor_lt]
        exact_mod_cast hposn
      have hemod : ⌊Int.fract x * (n : ℚ)⌋ % (n : ℤ) =
          ⌊Int.fract x * (n : ℚ)⌋ := Int.emod_eq_of_lt h0 hn'
      unfold samplePalette samplePaletteSpec
      rw [if_neg hone, if_neg hone]
      simp only [fmod_norm]
      rw [Int.tmod_eq_emod h0 (by omega), hemod,
        tmod_succ_toNat _ n h0 hn', Int.self_sub_floor]
  refine ⟨?_, ?_, key⟩
  · intro h1
    subst h1
    unfold samplePalette
    rw [if_pos rfl]
  · intro hb0
    subst hb0
    rw [key]
    by_cases hone : n = 1
    · subst hone
      unfold samplePaletteSpec
      rw [if_pos rfl]
      simp [Int.emod_one]
    · unfold samplePaletteSpec
      rw [if_neg hone]
      simp

/-- Instance of `C4_palette_sampling`: with one palette entry any
sample position returns it bit-exact; with two entries and blend 0 the
sample at position 0 is the hard step `p[0]`. -/
theorem C4_palette_sampling_witness :
    samplePalette (22/7) 1 (fun i => ⟨i, 40 + i, 0⟩) 77 = ⟨0, 40, 0⟩ ∧
    samplePalette 0 2 (fun i => ⟨i, 40 + i, 0⟩) 0 = ⟨0, 40, 0⟩ := by
  constructor
  · exact (C4_palette_sampling (22/7) 1 77 (fun i => ⟨i, 40 + i, 0⟩)
      (by decide) (by decide) (by decide)).1 rfl
  · have h := (C4_palette_sampling 0 2 0 (fun i => ⟨i, 40 + i, 0⟩)
      (by decide) (by decide) (by decide)).2.1 rfl
    rw [h]
    simp

end XboxRGB
